import Mathlib

/-!
Shallow embedding of the geocoding logic of `src/app.py`.

Strings are modelled as lists of characters.  Network interaction is
modelled by oracles: each query has a Census oracle `Nat → CensusOutcome V`
giving the outcome of its successive calls to the Census backend, and an
OSM oracle `Nat → OsmOutcome V` giving the outcome of its successive calls
to the Nominatim backend.  `V` stands for the numeric type of coordinate
components; the properties studied here only concern presence, absence and
identity of these values, so `V` is kept abstract.  The completion order
of the thread-pool futures in `batch_geocode` is modelled by an explicit
list of indices.
-/

namespace Geocoder

/-- The whitespace characters removed by Python's `str.strip()` (the ASCII
ones, which suffice for the texts considered here). -/
def isSpace (c : Char) : Bool :=
  c = ' ' || c = '\t' || c = '\n' || c = '\r' || c = '\x0b' || c = '\x0c'

/-- Python's `s.strip()`: remove leading and trailing whitespace. -/
def strip (s : List Char) : List Char :=
  (s.dropWhile isSpace).rdropWhile isSpace

/-- One step of the depth counter of `split_names` (`src/app.py:79-82`):
`(` increments, `)` decrements clamped at zero (`max(depth-1, 0)` in the
source, which is `Nat` truncated subtraction here), every other character
leaves the depth unchanged. -/
def updDepth (depth : Nat) (c : Char) : Nat :=
  if c = '(' then depth + 1 else if c = ')' then depth - 1 else depth

/-- The loop of `split_names` (`src/app.py:76-88`): `names` is the list
built so far, `buf` the current buffer, `depth` the parenthesis depth.
On a comma at depth zero the stripped buffer is appended (even when it is
empty) and the buffer is reset; any other character is appended to the
buffer.  At the end of the text the leftover buffer is appended only when
it is nonempty after stripping (Python's `if buf.strip()`). -/
def splitNamesGo : List Char → List (List Char) → List Char → Nat → List (List Char)
  | [], names, buf, _ => if strip buf = [] then names else names ++ [strip buf]
  | c :: cs, names, buf, depth =>
    let depth1 := updDepth depth c
    if c = ',' ∧ depth1 = 0 then splitNamesGo cs (names ++ [strip buf]) [] depth1
    else splitNamesGo cs names (buf ++ [c]) depth1

/-- `split_names` (`src/app.py:76-88`): split a text on commas, ignoring
commas inside parentheses. -/
def split_names (text : List Char) : List (List Char) :=
  splitNamesGo text [] [] 0

/-- Raw segments of a character list, cut at every comma that occurs at
parenthesis depth zero (depth tracked by `updDepth`, so commas at positive
depth never cut).  There is always at least one (possibly empty) segment;
a terminal depth-zero comma produces a trailing empty segment. -/
def segsGo : List Char → Nat → List (List Char)
  | [], _ => [[]]
  | c :: cs, depth =>
    let depth1 := updDepth depth c
    if c = ',' ∧ depth1 = 0 then [] :: segsGo cs depth1
    else
      match segsGo cs depth1 with
      | [] => [[c]]
      | s :: rest => (c :: s) :: rest

/-- Strip every segment, dropping the final segment when it strips to the
empty string. -/
def assemble : List (List Char) → List (List Char)
  | [] => []
  | [s] => if strip s = [] then [] else [strip s]
  | s :: t :: rest => strip s :: assemble (t :: rest)

/-- Outcome of the single HTTP request made by `geocode_census`
(`src/app.py:91-103`), as seen by that function: either an exception is
raised somewhere in the `try` block (the code catches every exception
alike; we record whether it counts as transient — timeout, temporary
unavailability — or permanent — quota, invalid request — because the
specification distinguishes the two classes), or the request succeeds and
yields the `addressMatches` list, each match carrying the optional fields
`coordinates.y` and `coordinates.x`. -/
inductive CensusOutcome (V : Type) where
  | exnTransient : CensusOutcome V
  | exnPermanent : CensusOutcome V
  | ok (ms : List (Option V × Option V)) : CensusOutcome V
deriving DecidableEq

deriving instance DecidableEq for Except

/-- `geocode_census` (`src/app.py:91-103`): one request; any exception
yields `(None, None)` (the bare `except Exception: pass`); an empty match
list yields `(None, None)`; otherwise the first match's
`coordinates.get('y')` and `coordinates.get('x')`, each possibly absent. -/
def geocode_census {V : Type} (o : CensusOutcome V) : Option V × Option V :=
  match o with
  | .exnTransient => (none, none)
  | .exnPermanent => (none, none)
  | .ok [] => (none, none)
  | .ok (m :: _) => (m.1, m.2)

/-- Outcome of one call `osm.geocode(...)` inside `geocode_osm`
(`src/app.py:106-113`): a transient geopy error (`GeocoderTimedOut` or
`GeocoderUnavailable`, exactly the ones the `except` clause catches), a
falsy `loc` (no match found), a found location carrying latitude and
longitude, or any other exception, which the loop does not catch. -/
inductive OsmOutcome (V : Type) where
  | transient : OsmOutcome V
  | notFound : OsmOutcome V
  | found (lat lng : V) : OsmOutcome V
  | raised : OsmOutcome V
deriving DecidableEq

/-- `true` exactly on the transient outcome; used to count sleeps. -/
def OsmOutcome.isTransient {V : Type} : OsmOutcome V → Bool
  | .transient => true
  | _ => false

/-- Instrumented run of `geocode_osm`: the final outcome (`Except.error ()`
models an exception propagating out of `geocode_osm`), the number of
`osm.geocode` calls made, and the number of `time.sleep(1)` calls made. -/
structure OsmRun (V : Type) where
  result : Except Unit (Option V × Option V)
  calls : Nat
  sleeps : Nat
deriving DecidableEq

/-- The `for _ in range(3)` loop of `geocode_osm` (`src/app.py:107-112`)
with `fuel` iterations left, about to make call number `i`: a found
location returns immediately; a falsy location just lets the loop
continue (no sleep); a transient error sleeps one second and continues;
any other exception propagates out.  When the loop ends without a
return, the function returns `(None, None)`. -/
def osmGo {V : Type} (oracle : Nat → OsmOutcome V) : Nat → Nat → OsmRun V
  | 0, _ => ⟨.ok (none, none), 0, 0⟩
  | fuel + 1, i =>
    match oracle i with
    | .found lat lng => ⟨.ok (some lat, some lng), 1, 0⟩
    | .notFound =>
      let r := osmGo oracle fuel (i + 1)
      ⟨r.result, r.calls + 1, r.sleeps⟩
    | .transient =>
      let r := osmGo oracle fuel (i + 1)
      ⟨r.result, r.calls + 1, r.sleeps + 1⟩
    | .raised => ⟨.error (), 1, 0⟩

/-- `geocode_osm` (`src/app.py:106-113`), instrumented. -/
def osmRun {V : Type} (oracle : Nat → OsmOutcome V) : OsmRun V :=
  osmGo oracle 3 0

/-- The value (or exception) produced by `geocode_osm`. -/
def geocode_osm {V : Type} (oracle : Nat → OsmOutcome V) :
    Except Unit (Option V × Option V) :=
  (osmRun oracle).result

/-- Instrumented run of `geocode_master`: the final outcome and the
numbers of Census calls, OSM calls and sleeps performed. -/
structure MasterRun (V : Type) where
  result : Except Unit (Option V × Option V)
  censusCalls : Nat
  osmCalls : Nat
  sleeps : Nat
deriving DecidableEq

/-- `geocode_master` (`src/app.py:116-120`), instrumented: one Census
call; when its answer has both components present it is returned,
otherwise `geocode_osm` runs and its outcome is returned. -/
def geocode_master_run {V : Type} (c : Nat → CensusOutcome V)
    (o : Nat → OsmOutcome V) : MasterRun V :=
  match geocode_census (c 0) with
  | (some lat, some lng) => ⟨.ok (some lat, some lng), 1, 0, 0⟩
  | _ =>
    let r := osmRun o
    ⟨r.result, 1, r.calls, r.sleeps⟩

/-- The value (or exception) produced by `geocode_master`. -/
def geocode_master {V : Type} (c : Nat → CensusOutcome V)
    (o : Nat → OsmOutcome V) : Except Unit (Option V × Option V) :=
  (geocode_master_run c o).result

/-- The value `batch_geocode` stores for one query: the future's result,
with any exception from the task mapped to `(None, None)` by the
`except Exception` clause at `src/app.py:131-132`. -/
def queryResult {V : Type} (c : Nat → CensusOutcome V)
    (o : Nat → OsmOutcome V) : Option V × Option V :=
  match (geocode_master_run c o).result with
  | .ok p => p
  | .error _ => (none, none)

/-- `batch_geocode` (`src/app.py:123-133`).  `coords` starts as
`[None] * len(names)` (`List.replicate`, with `none` for an unwritten
slot); the `as_completed` iteration is modelled by `order`, the indices
of the futures in completion order; each completed future writes its
query's result into the slot at its input index.  `workers` only sizes
the thread pool and does not otherwise enter the computation.  The
oracles are per query index: the task for query `i` talks to backends
described by `co i` and `oo i`. -/
def batch_geocode {V : Type} (names : List String) (workers : Nat)
    (co : Nat → Nat → CensusOutcome V) (oo : Nat → Nat → OsmOutcome V)
    (order : List Nat) : List (Option (Option V × Option V)) :=
  order.foldl (fun acc idx => acc.set idx (some (queryResult (co idx) (oo idx))))
    (List.replicate names.length none)

/-- Number of outbound backend calls (Census plus OSM) made for each
entry of a batch. -/
def batchBackendCalls {V : Type} (names : List String)
    (co : Nat → Nat → CensusOutcome V) (oo : Nat → Nat → OsmOutcome V) :
    List Nat :=
  (List.range names.length).map fun i =>
    (geocode_master_run (co i) (oo i)).censusCalls +
      (geocode_master_run (co i) (oo i)).osmCalls

/-- Prepend `buf` to the first segment of a segment list (used to relate
the buffer of `splitNamesGo` to the segments of `segsGo`). -/
def consFirst (buf : List Char) : List (List Char) → List (List Char)
  | [] => [buf]
  | s :: rest => (buf ++ s) :: rest

lemma segsGo_ne_nil (cs : List Char) (depth : Nat) : segsGo cs depth ≠ [] := by
  cases cs with
  | nil => simp [segsGo]
  | cons c cs =>
    rw [segsGo]
    split
    · simp
    · split <;> simp

lemma consFirst_nil {segs : List (List Char)} (h : segs ≠ []) :
    consFirst [] segs = segs := by
  cases segs with
  | nil => exact absurd rfl h
  | cons s rest => simp [consFirst]

lemma assemble_cons_of_ne_nil (s : List Char) {rest : List (List Char)}
    (h : rest ≠ []) : assemble (s :: rest) = strip s :: assemble rest := by
  cases rest with
  | nil => exact absurd rfl h
  | cons t rest => rfl

lemma strip_nil : strip ([] : List Char) = [] := rfl

lemma strip_idem (l : List Char) : strip (strip l) = strip l := by
  unfold strip
  have ht : List.dropWhile isSpace (List.dropWhile isSpace l) =
      List.dropWhile isSpace l := List.dropWhile_idempotent _ _
  obtain ⟨s, hs⟩ := List.rdropWhile_prefix isSpace (List.dropWhile isSpace l)
  cases h : List.rdropWhile isSpace (List.dropWhile isSpace l) with
  | nil => simp [List.rdropWhile]
  | cons c cs =>
    have htc : List.dropWhile isSpace l = c :: (cs ++ s) := by
      rw [← hs, h]; rfl
    have hpc : isSpace c = false := by
      have h0 : (0 : Nat) < (List.dropWhile isSpace l).length := by
        rw [htc]; exact Nat.succ_pos _
      have := List.dropWhile_eq_self_iff.mp ht h0
      simpa [htc] using this
    have hdw : List.dropWhile isSpace (c :: cs) = c :: cs := by
      rw [List.dropWhile_cons, hpc]; simp
    rw [hdw, ← h, List.rdropWhile_idempotent]

lemma mem_assemble {s : List Char} :
    ∀ {segs : List (List Char)}, s ∈ assemble segs → ∃ t, s = strip t := by
  intro segs
  induction segs with
  | nil => intro h; simp [assemble] at h
  | cons u rest ih =>
    intro h
    cases rest with
    | nil =>
      by_cases hu : strip u = []
      · simp [assemble, hu] at h
      · simp [assemble, hu] at h
        exact ⟨u, h⟩
    | cons t rest2 =>
      rw [assemble_cons_of_ne_nil u (by simp)] at h
      rcases List.mem_cons.mp h with h1 | h2
      · exact ⟨u, h1⟩
      · exact ih h2

lemma splitNamesGo_eq :
    ∀ (cs : List Char) (names : List (List Char)) (buf : List Char) (depth : Nat),
      splitNamesGo cs names buf depth =
        names ++ assemble (consFirst buf (segsGo cs depth)) := by
  intro cs
  induction cs with
  | nil =>
    intro names buf depth
    by_cases hb : strip buf = []
    · simp [splitNamesGo, segsGo, consFirst, assemble, hb]
    · simp [splitNamesGo, segsGo, consFirst, assemble, hb]
  | cons c cs ih =>
    intro names buf depth
    rw [splitNamesGo, segsGo]
    by_cases hc : c = ',' ∧ updDepth depth c = 0
    · rw [if_pos hc, if_pos hc, ih]
      rw [consFirst_nil (segsGo_ne_nil cs _)]
      have : consFirst buf ([] :: segsGo cs (updDepth depth c)) =
          buf :: segsGo cs (updDepth depth c) := by simp [consFirst]
      rw [this, assemble_cons_of_ne_nil buf (segsGo_ne_nil cs _)]
      simp
    · rw [if_neg hc, if_neg hc, ih]
      rcases hseg : segsGo cs (updDepth depth c) with _ | ⟨s, rest⟩
      · exact absurd hseg (segsGo_ne_nil cs _)
      · simp only [consFirst]
        have : buf ++ c :: s = (buf ++ [c]) ++ s := by simp
        rw [this]

lemma osmGo_calls_le {V : Type} (oracle : Nat → OsmOutcome V) :
    ∀ (fuel i : Nat), (osmGo oracle fuel i).calls ≤ fuel := by
  intro fuel
  induction fuel with
  | zero => intro i; simp [osmGo]
  | succ f ih =>
    intro i
    cases h : oracle i with
    | found lat lng => simp [osmGo, h]
    | notFound =>
      simp only [osmGo, h]
      exact Nat.succ_le_succ (ih (i + 1))
    | transient =>
      simp only [osmGo, h]
      exact Nat.succ_le_succ (ih (i + 1))
    | raised => simp [osmGo, h]

lemma osmGo_sleeps {V : Type} (oracle : Nat → OsmOutcome V) :
    ∀ (fuel i : Nat),
      (osmGo oracle fuel i).sleeps =
        (List.range' i (osmGo oracle fuel i).calls).countP
          (fun j => (oracle j).isTransient) := by
  intro fuel
  induction fuel with
  | zero => intro i; simp [osmGo]
  | succ f ih =>
    intro i
    cases h : oracle i with
    | found lat lng => simp [osmGo, h, OsmOutcome.isTransient]
    | notFound =>
      simp only [osmGo, h]
      rw [List.range'_succ, List.countP_cons]
      simp [h, OsmOutcome.isTransient, ih (i + 1)]
    | transient =>
      simp only [osmGo, h]
      rw [List.range'_succ, List.countP_cons]
      simp [h, OsmOutcome.isTransient, ih (i + 1)]
    | raised => simp [osmGo, h, OsmOutcome.isTransient]

lemma osmGo_all_fail {V : Type} (oracle : Nat → OsmOutcome V) :
    ∀ (fuel i : Nat),
      (∀ j, j < fuel →
        oracle (i + j) = .transient ∨ oracle (i + j) = .notFound) →
      (osmGo oracle fuel i).result = .ok (none, none) ∧
        (osmGo oracle fuel i).calls = fuel := by
  intro fuel
  induction fuel with
  | zero => intro i _; exact ⟨rfl, rfl⟩
  | succ f ih =>
    intro i hfail
    have hshift : ∀ j, j < f →
        oracle (i + 1 + j) = .transient ∨ oracle (i + 1 + j) = .notFound := by
      intro j hj
      have := hfail (j + 1) (by omega)
      rwa [show i + (j + 1) = i + 1 + j by omega] at this
    have hrec := ih (i + 1) hshift
    have h0 := hfail 0 (by omega)
    rw [Nat.add_zero] at h0
    rcases h0 with h0 | h0 <;>
      simp only [osmGo, h0] <;> exact ⟨hrec.1, by rw [hrec.2]⟩

lemma osmGo_first_found {V : Type} (oracle : Nat → OsmOutcome V) (a b : V) :
    ∀ (fuel k i : Nat), k < fuel → oracle (i + k) = .found a b →
      (∀ j, j < k →
        oracle (i + j) = .transient ∨ oracle (i + j) = .notFound) →
      (osmGo oracle fuel i).result = .ok (some a, some b) ∧
        (osmGo oracle fuel i).calls = k + 1 := by
  intro fuel
  induction fuel with
  | zero => intro k i hk; omega
  | succ f ih =>
    intro k i hk hfound hfail
    cases k with
    | zero =>
      rw [Nat.add_zero] at hfound
      simp [osmGo, hfound]
    | succ k2 =>
      have h0 := hfail 0 (by omega)
      rw [Nat.add_zero] at h0
      have hfound2 : oracle (i + 1 + k2) = .found a b := by
        rwa [show i + (k2 + 1) = i + 1 + k2 by omega] at hfound
      have hfail2 : ∀ j, j < k2 →
          oracle (i + 1 + j) = .transient ∨ oracle (i + 1 + j) = .notFound := by
        intro j hj
        have := hfail (j + 1) (by omega)
        rwa [show i + (j + 1) = i + 1 + j by omega] at this
      have hrec := ih k2 (i + 1) (by omega) hfound2 hfail2
      rcases h0 with h0 | h0 <;>
        simp only [osmGo, h0] <;> exact ⟨hrec.1, by rw [hrec.2]⟩

lemma osmGo_ok_pair {V : Type} (oracle : Nat → OsmOutcome V) :
    ∀ (fuel i : Nat) (p : Option V × Option V),
      (osmGo oracle fuel i).result = .ok p →
      (∃ a b, p = (some a, some b)) ∨ p = (none, none) := by
  intro fuel
  induction fuel with
  | zero =>
    intro i p hp
    right
    simpa [osmGo] using (Except.ok.inj hp).symm
  | succ f ih =>
    intro i p hp
    cases h : oracle i with
    | found lat lng =>
      left
      simp only [osmGo, h] at hp
      exact ⟨lat, lng, (Except.ok.inj hp).symm⟩
    | notFound =>
      simp only [osmGo, h] at hp
      exact ih (i + 1) p hp
    | transient =>
      simp only [osmGo, h] at hp
      exact ih (i + 1) p hp
    | raised => simp [osmGo, h] at hp

lemma masterRun_censusCalls {V : Type} (c : Nat → CensusOutcome V)
    (o : Nat → OsmOutcome V) : (geocode_master_run c o).censusCalls = 1 := by
  unfold geocode_master_run
  rcases geocode_census (c 0) with ⟨l, r⟩
  cases l <;> cases r <;> rfl

lemma master_fallthrough {V : Type} {c : Nat → CensusOutcome V}
    (o : Nat → OsmOutcome V)
    (h : (geocode_census (c 0)).1 = none ∨ (geocode_census (c 0)).2 = none) :
    geocode_master_run c o =
      ⟨(osmRun o).result, 1, (osmRun o).calls, (osmRun o).sleeps⟩ := by
  unfold geocode_master_run
  rcases hp : geocode_census (c 0) with ⟨l, r⟩
  rw [hp] at h
  cases l with
  | none => cases r <;> rfl
  | some a =>
    cases r with
    | none => rfl
    | some b => simp at h

lemma batchWrite_length {P : Type} (res : Nat → P) :
    ∀ (order : List Nat) (acc : List (Option P)),
      (order.foldl (fun a idx => a.set idx (some (res idx))) acc).length =
        acc.length := by
  intro order
  induction order with
  | nil => intro acc; rfl
  | cons i rest ih =>
    intro acc
    rw [List.foldl_cons, ih, List.length_set]

lemma batchWrite_getElem {P : Type} (res : Nat → P) :
    ∀ (order : List Nat) (acc : List (Option P)) (j : Nat), j < acc.length →
      (order.foldl (fun a idx => a.set idx (some (res idx))) acc)[j]? =
        if j ∈ order then some (some (res j)) else acc[j]? := by
  intro order
  induction order with
  | nil => intro acc j hj; simp
  | cons i rest ih =>
    intro acc j hj
    rw [List.foldl_cons, ih _ j (by rw [List.length_set]; exact hj)]
    by_cases hmem : j ∈ rest
    · simp [hmem, List.mem_cons]
    · rw [if_neg hmem, List.getElem?_set]
      by_cases hij : i = j
      · subst hij
        simp [hj, List.mem_cons]
      · have hnot : j ∉ i :: rest := by
          rw [List.mem_cons]
          rintro (hh | hh)
          · exact hij hh.symm
          · exact hmem hh
        simp [hij, hnot]

lemma batch_geocode_eq {V : Type} (names : List String) (workers : Nat)
    (co : Nat → Nat → CensusOutcome V) (oo : Nat → Nat → OsmOutcome V)
    {order : List Nat} (h : order.Perm (List.range names.length)) :
    batch_geocode names workers co oo order =
      (List.range names.length).map
        (fun i => some (queryResult (co i) (oo i))) := by
  apply List.ext_getElem?
  intro j
  by_cases hj : j < names.length
  · have key := batchWrite_getElem (P := Option V × Option V)
      (fun i => queryResult (co i) (oo i)) order
      (List.replicate names.length none) j (by simpa using hj)
    have hmem : j ∈ order := h.mem_iff.mpr (List.mem_range.mpr hj)
    rw [batch_geocode, key, if_pos hmem, List.getElem?_map,
      List.getElem?_range hj]
    rfl
  · have h1 : (batch_geocode names workers co oo order).length =
        names.length := by
      rw [batch_geocode, batchWrite_length, List.length_replicate]
    rw [List.getElem?_eq_none (by omega), List.getElem?_eq_none (by simp; omega)]

/-- C1: for every input list of queries of length N and every completion
order of the concurrent worker tasks (any permutation of the input
indices), `batch_geocode` returns a result list of length exactly N, and
the entry at index `i` is the result produced for the query at index `i`:
results are written into a pre-sized slot keyed by input index, never
sorted by completion order. -/
theorem c1_batch_length_and_index {V : Type} (names : List String)
    (workers : Nat) (co : Nat → Nat → CensusOutcome V)
    (oo : Nat → Nat → OsmOutcome V) (order : List Nat)
    (h : order.Perm (List.range names.length)) :
    (batch_geocode names workers co oo order).length = names.length ∧
      ∀ i, i < names.length →
        (batch_geocode names workers co oo order)[i]? =
          some (some (queryResult (co i) (oo i))) := by
  rw [batch_geocode_eq names workers co oo h]
  constructor
  · simp
  · intro i hi
    rw [List.getElem?_map, List.getElem?_range hi]
    rfl

/-- C1 witness: a two-query batch whose futures complete in reversed
order still yields the slots in input order. -/
theorem c1_witness :
    (batch_geocode (V := Int) ["a", "b"] 10
        (fun _ _ => CensusOutcome.ok [(some 1, some 2)])
        (fun _ _ => OsmOutcome.notFound) [1, 0]).length = 2 ∧
      ∀ i, i < 2 →
        (batch_geocode (V := Int) ["a", "b"] 10
          (fun _ _ => CensusOutcome.ok [(some 1, some 2)])
          (fun _ _ => OsmOutcome.notFound) [1, 0])[i]? =
          some (some (queryResult
            ((fun _ _ => CensusOutcome.ok [(some (1 : Int), some 2)]) i)
            ((fun _ _ => OsmOutcome.notFound) i))) :=
  c1_batch_length_and_index ["a", "b"] 10 _ _ [1, 0] (by decide)

/-- C2 counterexample: the whitespace-only query `" "` is forwarded to
the Census backend (its entry makes one outbound backend call, not
zero), and with a backend that answers, its slot records a coordinate
rather than an absence. -/
theorem c2_counterexample :
    strip (String.toList " ") = [] ∧
      batch_geocode (V := Int) [" "] 10
        (fun _ _ => CensusOutcome.ok [(some 1, some 2)])
        (fun _ _ => OsmOutcome.notFound) [0] = [some (some 1, some 2)] ∧
      batchBackendCalls (V := Int) [" "]
        (fun _ _ => CensusOutcome.ok [(some 1, some 2)])
        (fun _ _ => OsmOutcome.notFound) = [1] := by
  decide

/-- C2 amended: blank or whitespace-only queries are not special-cased:
every entry of the batch, blank after stripping or not, is forwarded to
`geocode_master`, which always makes exactly one Census backend call for
it, and the entry's slot records whatever the backend chain returns. -/
theorem c2_blank_forwarded {V : Type} (names : List String) (workers : Nat)
    (co : Nat → Nat → CensusOutcome V) (oo : Nat → Nat → OsmOutcome V)
    (order : List Nat) (h : order.Perm (List.range names.length))
    (i : Nat) (hi : i < names.length)
    (hblank : strip (names.get ⟨i, hi⟩).toList = []) :
    (geocode_master_run (co i) (oo i)).censusCalls = 1 ∧
      (batch_geocode names workers co oo order)[i]? =
        some (some (queryResult (co i) (oo i))) := by
  refine ⟨masterRun_censusCalls _ _, ?_⟩
  rw [batch_geocode_eq names workers co oo h, List.getElem?_map,
    List.getElem?_range hi]
  rfl

/-- C2 witness: the amended statement at the concrete blank batch. -/
theorem c2_witness :
    (geocode_master_run
        ((fun _ _ => CensusOutcome.ok [(some (1 : Int), some 2)]) 0)
        ((fun _ _ => OsmOutcome.notFound) 0)).censusCalls = 1 ∧
      (batch_geocode (V := Int) [" "] 10
        (fun _ _ => CensusOutcome.ok [(some 1, some 2)])
        (fun _ _ => OsmOutcome.notFound) [0])[0]? =
        some (some (queryResult
          ((fun _ _ => CensusOutcome.ok [(some (1 : Int), some 2)]) 0)
          ((fun _ _ => OsmOutcome.notFound) 0))) :=
  c2_blank_forwarded [" "] 10
    (fun _ _ => CensusOutcome.ok [(some (1 : Int), some 2)])
    (fun _ _ => OsmOutcome.notFound) [0] (by decide) 0 (by decide) (by decide)

/-- C3 counterexample: an OSM backend that reports no match on its first
call and a location on its second: `geocode_osm` calls it a second time
and returns the second call's coordinate — after a NotFound the same
backend is retried rather than fallen through with zero retries. -/
theorem c3_counterexample :
    (osmRun (fun k => if k = 0 then OsmOutcome.notFound
        else OsmOutcome.found (1 : Int) 2)).calls = 2 ∧
      (osmRun (fun k => if k = 0 then OsmOutcome.notFound
        else OsmOutcome.found (1 : Int) 2)).result = .ok (some 1, some 2) := by
  decide

/-- C3 amended: a NotFound from the Census backend (empty match list)
falls through to OSM without retrying Census (exactly one Census call),
but a NotFound from the OSM backend does not end the chain: the loop
simply continues, calling the same backend again (with no sleep) while
attempts remain. -/
theorem c3_notfound_behaviour {V : Type} (c : Nat → CensusOutcome V)
    (o : Nat → OsmOutcome V) (h : c 0 = .ok []) :
    ((geocode_master_run c o).censusCalls = 1 ∧
      (geocode_master_run c o).result = (osmRun o).result) ∧
      ∀ (oracle : Nat → OsmOutcome V) (fuel i : Nat), oracle i = .notFound →
        osmGo oracle (fuel + 1) i =
          ⟨(osmGo oracle fuel (i + 1)).result,
            (osmGo oracle fuel (i + 1)).calls + 1,
            (osmGo oracle fuel (i + 1)).sleeps⟩ := by
  constructor
  · have hfall := master_fallthrough (c := c) o (Or.inl (by rw [h]; rfl))
    rw [hfall]
    exact ⟨rfl, rfl⟩
  · intro oracle fuel i ho
    simp only [osmGo, ho]

/-- C3 witness: the amended statement at a concrete no-match Census
oracle and a concrete OSM oracle. -/
theorem c3_witness :
    (((geocode_master_run (V := Int) (fun _ => CensusOutcome.ok [])
        (fun _ => OsmOutcome.found 1 2)).censusCalls = 1 ∧
      (geocode_master_run (V := Int) (fun _ => CensusOutcome.ok [])
        (fun _ => OsmOutcome.found 1 2)).result =
        (osmRun (fun _ => OsmOutcome.found (1 : Int) 2)).result) ∧
      ∀ (oracle : Nat → OsmOutcome Int) (fuel i : Nat),
        oracle i = .notFound →
        osmGo oracle (fuel + 1) i =
          ⟨(osmGo oracle fuel (i + 1)).result,
            (osmGo oracle fuel (i + 1)).calls + 1,
            (osmGo oracle fuel (i + 1)).sleeps⟩) :=
  c3_notfound_behaviour (fun _ => CensusOutcome.ok [])
    (fun _ => OsmOutcome.found 1 2) rfl

/-- C4 counterexample: with a Census oracle that fails transiently on
the first attempt but would succeed with `(5, 6)` on a second attempt,
and an OSM backend answering `(7, 8)`, `geocode_master` makes exactly
one Census call and resolves via OSM with `(7, 8)`: the primary backend
is not retried and does not resolve the query, contrary to the claim. -/
theorem c4_counterexample :
    (geocode_master_run
        (fun k => if k = 0 then CensusOutcome.exnTransient
          else CensusOutcome.ok [(some (5 : Int), some 6)])
        (fun _ => OsmOutcome.found 7 8)).censusCalls = 1 ∧
      (geocode_master_run
        (fun k => if k = 0 then CensusOutcome.exnTransient
          else CensusOutcome.ok [(some (5 : Int), some 6)])
        (fun _ => OsmOutcome.found 7 8)).result = .ok (some 7, some 8) ∧
      geocode_census ((fun k => if k = 0 then CensusOutcome.exnTransient
        else CensusOutcome.ok [(some (5 : Int), some 6)]) 1) =
        (some 5, some 6) := by
  decide

/-- C4 amended: a transient failure on the primary (Census) backend is
never retried: any Census exception makes `geocode_master` fall through
to the OSM backend on the first attempt, with exactly one Census call;
only the OSM backend retries transient failures, sleeping one time unit
after each transient attempt, within its 3-attempt bound. -/
theorem c4_no_primary_retry {V : Type} (c : Nat → CensusOutcome V)
    (o : Nat → OsmOutcome V) (h : c 0 = .exnTransient) :
    (geocode_master_run c o).censusCalls = 1 ∧
      (geocode_master_run c o).result = (osmRun o).result ∧
      (geocode_master_run c o).osmCalls = (osmRun o).calls ∧
      (osmRun o).sleeps =
        (List.range' 0 ((osmRun o).calls)).countP
          (fun j => (o j).isTransient) := by
  have hfall := master_fallthrough (c := c) o (Or.inl (by rw [h]; rfl))
  rw [hfall]
  exact ⟨rfl, rfl, rfl, osmGo_sleeps o 3 0⟩

/-- C4 witness: the amended statement at a concrete transiently failing
Census oracle. -/
theorem c4_witness :
    (geocode_master_run (V := Int) (fun _ => CensusOutcome.exnTransient)
        (fun _ => OsmOutcome.found 7 8)).censusCalls = 1 ∧
      (geocode_master_run (V := Int) (fun _ => CensusOutcome.exnTransient)
        (fun _ => OsmOutcome.found 7 8)).result =
        (osmRun (fun _ => OsmOutcome.found (7 : Int) 8)).result ∧
      (geocode_master_run (V := Int) (fun _ => CensusOutcome.exnTransient)
        (fun _ => OsmOutcome.found 7 8)).osmCalls =
        (osmRun (fun _ => OsmOutcome.found (7 : Int) 8)).calls ∧
      (osmRun (fun _ => OsmOutcome.found (7 : Int) 8)).sleeps =
        (List.range' 0
          ((osmRun (fun _ => OsmOutcome.found (7 : Int) 8)).calls)).countP
          (fun j => ((fun _ => OsmOutcome.found (7 : Int) 8) j).isTransient) :=
  c4_no_primary_retry (fun _ => CensusOutcome.exnTransient)
    (fun _ => OsmOutcome.found 7 8) rfl

/-- C5: a permanent (non-transient) failure on the primary Census
backend causes an immediate fall-through to the secondary OSM backend on
the first attempt: exactly one Census call is made (zero retries of the
primary) and the outcome is the OSM backend's outcome. -/
theorem c5_permanent_fallthrough {V : Type} (c : Nat → CensusOutcome V)
    (o : Nat → OsmOutcome V) (h : c 0 = .exnPermanent) :
    (geocode_master_run c o).censusCalls = 1 ∧
      (geocode_master_run c o).result = (osmRun o).result ∧
      (geocode_master_run c o).osmCalls = (osmRun o).calls := by
  have hfall := master_fallthrough (c := c) o (Or.inl (by rw [h]; rfl))
  rw [hfall]
  exact ⟨rfl, rfl, rfl⟩

/-- C5 witness: the statement at a concrete permanently failing Census
oracle. -/
theorem c5_witness :
    (geocode_master_run (V := Int) (fun _ => CensusOutcome.exnPermanent)
        (fun _ => OsmOutcome.found 3 4)).censusCalls = 1 ∧
      (geocode_master_run (V := Int) (fun _ => CensusOutcome.exnPermanent)
        (fun _ => OsmOutcome.found 3 4)).result =
        (osmRun (fun _ => OsmOutcome.found (3 : Int) 4)).result ∧
      (geocode_master_run (V := Int) (fun _ => CensusOutcome.exnPermanent)
        (fun _ => OsmOutcome.found 3 4)).osmCalls =
        (osmRun (fun _ => OsmOutcome.found (3 : Int) 4)).calls :=
  c5_permanent_fallthrough (fun _ => CensusOutcome.exnPermanent)
    (fun _ => OsmOutcome.found 3 4) rfl

/-- C6: under any completion order, the batch always returns a
full-length result list with exactly one entry per input query (none
dropped or duplicated); a query whose backends are all exhausted
(Census without match, all three OSM attempts failing) gets the absent
coordinate `(none, none)` recorded rather than raising a batch error;
and each entry depends only on its own query's backend oracles, so one
query's failure never aborts or alters any other query's result. -/
theorem c6_failure_isolation {V : Type} (names : List String) (workers : Nat)
    (co : Nat → Nat → CensusOutcome V) (oo : Nat → Nat → OsmOutcome V)
    (order : List Nat) (h : order.Perm (List.range names.length)) :
    (batch_geocode names workers co oo order).length = names.length ∧
      (∀ i, i < names.length →
        (batch_geocode names workers co oo order)[i]? =
          some (some (queryResult (co i) (oo i)))) ∧
      (∀ i, co i 0 = .ok [] →
        (∀ k, k < 3 → oo i k = .transient ∨ oo i k = .notFound) →
        queryResult (co i) (oo i) = (none, none)) ∧
      (∀ (c2 : Nat → Nat → CensusOutcome V) (o2 : Nat → Nat → OsmOutcome V)
        (order2 : List Nat), order2.Perm (List.range names.length) →
        ∀ i, i < names.length → c2 i = co i → o2 i = oo i →
        (batch_geocode names workers c2 o2 order2)[i]? =
          (batch_geocode names workers co oo order)[i]?) := by
  refine ⟨?_, ?_, ?_, ?_⟩
  · rw [batch_geocode_eq names workers co oo h]; simp
  · intro i hi
    rw [batch_geocode_eq names workers co oo h, List.getElem?_map,
      List.getElem?_range hi]
    rfl
  · intro i hcen hosm
    have hfall := master_fallthrough (c := co i) (oo i)
      (Or.inl (by rw [hcen]; rfl))
    have hres := osmGo_all_fail (oo i) 3 0 (by
      intro j hj
      have := hosm j hj
      rwa [Nat.zero_add])
    unfold queryResult
    rw [hfall]
    simp only
    rw [show (osmRun (oo i)).result = .ok (none, none) from hres.1]
  · intro c2 o2 order2 h2 i hi hc ho
    rw [batch_geocode_eq names workers c2 o2 h2,
      batch_geocode_eq names workers co oo h, List.getElem?_map,
      List.getElem?_map, List.getElem?_range hi]
    simp only [Option.map_some']
    rw [hc, ho]

/-- C6 witness: a two-query batch in which query 0 exhausts every
backend and query 1 succeeds, with reversed completion order. -/
theorem c6_witness :
    (batch_geocode (V := Int) ["x", "y"] 10
        (fun _ _ => CensusOutcome.ok []) (fun _ _ => OsmOutcome.notFound)
        [1, 0]).length = 2 ∧
      queryResult ((fun _ _ => CensusOutcome.ok ([] : List (Option Int × Option Int))) 0)
        ((fun _ _ => OsmOutcome.notFound) 0) = (none, none) :=
  have h := c6_failure_isolation (V := Int) ["x", "y"] 10
    (fun _ _ => CensusOutcome.ok []) (fun _ _ => OsmOutcome.notFound)
    [1, 0] (by decide)
  ⟨h.1, h.2.2.1 0 rfl (by decide)⟩

/-- C7: for a fixed family of backend responses, the re-assembly of
`batch_geocode` is deterministic and order-independent: a run with
worker-pool size 1 and a run with worker-pool size 8, each under an
arbitrary completion order of the futures, produce identical final
result lists. -/
theorem c7_order_independent {V : Type} (names : List String)
    (co : Nat → Nat → CensusOutcome V) (oo : Nat → Nat → OsmOutcome V)
    (order1 order2 : List Nat)
    (h1 : order1.Perm (List.range names.length))
    (h2 : order2.Perm (List.range names.length)) :
    batch_geocode names 1 co oo order1 =
      batch_geocode names 8 co oo order2 := by
  rw [batch_geocode_eq names 1 co oo h1, batch_geocode_eq names 8 co oo h2]

/-- C7 witness: a concrete three-query batch with two different
completion orders yields the same list for 1 worker and 8 workers. -/
theorem c7_witness :
    batch_geocode (V := Int) ["a", "b", "c"] 1
        (fun i _ => if i = 1 then CensusOutcome.ok []
          else CensusOutcome.ok [(some 1, some 2)])
        (fun _ _ => OsmOutcome.notFound) [2, 0, 1] =
      batch_geocode (V := Int) ["a", "b", "c"] 8
        (fun i _ => if i = 1 then CensusOutcome.ok []
          else CensusOutcome.ok [(some 1, some 2)])
        (fun _ _ => OsmOutcome.notFound) [0, 1, 2] :=
  c7_order_independent ["a", "b", "c"] _ _ [2, 0, 1] [0, 1, 2]
    (by decide) (by decide)

/-- C8: `split_names` cuts its input exactly at the commas that occur at
parenthesis depth zero (depth incremented by `(`, decremented by `)`
clamped at zero, so a comma inside parentheses never splits), each
returned name equals its own whitespace-stripped form, and the trailing
segment is dropped exactly when it is empty after stripping. -/
theorem c8_split_names (text : List Char) :
    split_names text = assemble (segsGo text 0) ∧
      ∀ s, s ∈ split_names text → strip s = s := by
  have hmain : split_names text = assemble (segsGo text 0) := by
    rw [split_names, splitNamesGo_eq, consFirst_nil (segsGo_ne_nil text 0)]
    rfl
  refine ⟨hmain, ?_⟩
  intro s hs
  rw [hmain] at hs
  obtain ⟨t, ht⟩ := mem_assemble hs
  rw [ht, strip_idem]

/-- C8 witness: a concrete text with a parenthesised comma, padding
whitespace and a trailing comma. -/
theorem c8_witness :
    split_names (String.toList "a(b,c), d,") =
        assemble (segsGo (String.toList "a(b,c), d,") 0) ∧
      strip (String.toList "a(b,c)") = String.toList "a(b,c)" :=
  ⟨(c8_split_names _).1,
    (c8_split_names (String.toList "a(b,c), d,")).2 _ (by decide)⟩

/-- C9: any value pair returned by `geocode_master` has both components
present or both absent; a Census answer missing either component is
discarded in favour of the OSM fallback, which itself yields a full
coordinate or `(none, none)`. -/
theorem c9_both_or_neither {V : Type} (c : Nat → CensusOutcome V)
    (o : Nat → OsmOutcome V) (p : Option V × Option V)
    (h : (geocode_master_run c o).result = .ok p) :
    (∃ a b, p = (some a, some b)) ∨ p = (none, none) := by
  unfold geocode_master_run at h
  rcases hp : geocode_census (c 0) with ⟨l, r⟩
  rw [hp] at h
  cases l with
  | some a =>
    cases r with
    | some b =>
      left
      exact ⟨a, b, (Except.ok.inj h).symm⟩
    | none => exact osmGo_ok_pair o 3 0 p h
  | none =>
    cases r with
    | some b => exact osmGo_ok_pair o 3 0 p h
    | none => exact osmGo_ok_pair o 3 0 p h

/-- C9 witness: a Census answer with only a latitude is discarded and
the OSM coordinate (both components present) is returned. -/
theorem c9_witness :
    (∃ a b, ((some (1 : Int), some (2 : Int)) : Option Int × Option Int) =
        (some a, some b)) ∨
      ((some (1 : Int), some (2 : Int)) : Option Int × Option Int) =
        (none, none) :=
  c9_both_or_neither (fun _ => CensusOutcome.ok [(some 3, none)])
    (fun _ => OsmOutcome.found 1 2) (some 1, some 2) (by decide)

/-- C10: `geocode_osm` is a bounded counting loop: it makes at most 3
backend calls, sleeps exactly once per transient failure among the calls
it makes, returns the first found coordinate when one occurs within the
bound after only failed attempts, and returns `(none, none)` when all 3
attempts fail (transient or no-match). -/
theorem c10_osm_bounded {V : Type} (oracle : Nat → OsmOutcome V) :
    (osmRun oracle).calls ≤ 3 ∧
      (osmRun oracle).sleeps =
        (List.range' 0 ((osmRun oracle).calls)).countP
          (fun j => (oracle j).isTransient) ∧
      (∀ a b k, k < 3 → oracle k = .found a b →
        (∀ j, j < k → oracle j = .transient ∨ oracle j = .notFound) →
        (osmRun oracle).result = .ok (some a, some b) ∧
          (osmRun oracle).calls = k + 1) ∧
      ((∀ k, k < 3 → oracle k = .transient ∨ oracle k = .notFound) →
        (osmRun oracle).result = .ok (none, none) ∧
          (osmRun oracle).calls = 3) := by
  refine ⟨osmGo_calls_le oracle 3 0, osmGo_sleeps oracle 3 0, ?_, ?_⟩
  · intro a b k hk hf hfails
    exact osmGo_first_found oracle a b 3 k 0 hk (by rwa [Nat.zero_add]) (by
      intro j hj
      have := hfails j hj
      rwa [Nat.zero_add])
  · intro hfails
    exact osmGo_all_fail oracle 3 0 (by
      intro j hj
      have := hfails j hj
      rwa [Nat.zero_add])

/-- C10 witness: a concrete oracle failing transiently once then finding
a location: at most 3 calls and the first found coordinate returned. -/
theorem c10_witness :
    (osmRun (fun k => if k = 0 then OsmOutcome.transient
        else OsmOutcome.found (1 : Int) 2)).calls ≤ 3 ∧
      (osmRun (fun k => if k = 0 then OsmOutcome.transient
        else OsmOutcome.found (1 : Int) 2)).result = .ok (some 1, some 2) :=
  have h := c10_osm_bounded (fun k => if k = 0 then OsmOutcome.transient
    else OsmOutcome.found (1 : Int) 2)
  ⟨h.1, (h.2.2.1 1 2 1 (by decide) (by decide) (by decide)).1⟩

end Geocoder
